import Mathlib

/-!
Verification of the query/aggregation core of the African-Mineral dashboard.

The development shallowly embeds the Python modules `modules/database.py`,
`modules/analytics.py` and `modules/auth.py`.  Python strings are modelled by
`String` (a wrapper around `List Char`), with the string operations used by the
source (`str.strip`, `str.split`, `str.lower`, prefix-before-a-character) defined
below, and Python integers by `Nat` (all quantities in the source are
non-negative).  File I/O, uuid generation and timestamps are environment
effects outside the pure data model and are not represented: functions take the
in-memory record/user sets explicitly and return the new sets.
-/

namespace AfricanMineral

/-! ### Python string primitives -/

/-- Model of `str.split(sep)` for a one-character separator, on the underlying
character list.  Mirrors Python: the result is always non-empty and empty
chunks are kept (`"a,".split(',') == ['a','']`, `"".split(',') == ['']`). -/
def splitOnAux (sep : Char) : List Char → List (List Char)
  | [] => [[]]
  | c :: cs =>
    let r := splitOnAux sep cs
    if c = sep then [] :: r
    else
      match r with
      | [] => [[c]]
      | t :: ts => (c :: t) :: ts

/-- Model of Python `s.split(sep)` for a one-character separator. -/
def pySplit (sep : Char) (s : String) : List String :=
  (splitOnAux sep s.data).map fun l => ⟨l⟩

/-- Model of Python `s.strip()` on the underlying character list: drop leading
and trailing whitespace. -/
def stripL (l : List Char) : List Char :=
  (l.dropWhile Char.isWhitespace).rdropWhile Char.isWhitespace

/-- Model of Python `s.strip()`. -/
def pyStrip (s : String) : String := ⟨stripL s.data⟩

/-- Characters other than an opening parenthesis. -/
def notParen (c : Char) : Bool := c != '('

/-- Model of Python `s.split('(')[0]`: the prefix of `s` before the first
opening parenthesis (all of `s` when there is none). -/
def parenHead (s : String) : String := ⟨s.data.takeWhile notParen⟩

/-- Model of Python `s.lower()` (the data in this program is ASCII). -/
def pyLower (s : String) : String := ⟨s.data.map Char.toLower⟩

/-! ### Data model (`modules/database.py`)

`id` (a fresh uuid) and `created_at` (a wall-clock timestamp) are produced by
the environment and play no role in any queried behaviour; they are omitted
from the embedded records. -/

/-- One raw Excel row: `row['Critical Mineral']`,
`row['Primary African Producing Countries']`, `row['Key Uses (Criticality)']`. -/
structure RawRow where
  mineral : String
  countries : String
  uses : String
deriving DecidableEq

/-- One canonical mineral-occurrence record, as built in `load_excel_data`. -/
structure MineralRecord where
  mineral_name : String
  country : String
  uses : String
  year : Nat
  production_volume : Nat
  reserves : Nat
  price : Nat
  unit : String
deriving DecidableEq

/-- Embeds `MineralDatabase.estimate_production`: nested lookup table with default
10000 when the mineral, or the country within the mineral, is unknown. -/
def estimate_production (mineral country : String) : Nat :=
  if mineral = "Cobalt" then
    if country = "DRC" then 130000
    else if country = "Zambia" then 5000
    else if country = "Morocco" then 2000
    else 10000
  else if mineral = "Manganese" then
    if country = "South Africa" then 6200000
    else if country = "Gabon" then 7000000
    else if country = "Ghana" then 500000
    else 10000
  else if mineral = "Lithium" then
    if country = "Zimbabwe" then 1200
    else if country = "DRC" then 800
    else if country = "Mali" then 300
    else 10000
  else if mineral = "Copper" then
    if country = "DRC" then 1500000
    else if country = "Zambia" then 800000
    else if country = "South Africa" then 50000
    else 10000
  else if mineral = "Graphite (Natural)" then
    if country = "Mozambique" then 30000
    else if country = "Madagascar" then 50000
    else if country = "Tanzania" then 15000
    else 10000
  else if mineral = "Chromium" then
    if country = "South Africa" then 18000000
    else if country = "Zimbabwe" then 900000
    else 10000
  else 10000

/-- Embeds `MineralDatabase.estimate_reserves`: 75 years of production. -/
def estimate_reserves (mineral country : String) : Nat :=
  estimate_production mineral country * 75

/-- Embeds `MineralDatabase.estimate_price`: per-mineral price table with default 5000. -/
def estimate_price (mineral : String) : Nat :=
  if mineral = "Cobalt" then 32000
  else if mineral = "Platinum-Group Metals (PGMs)" then 850000
  else if mineral = "Manganese" then 1800
  else if mineral = "Bauxite (for Aluminum)" then 50
  else if mineral = "Graphite (Natural)" then 1200
  else if mineral = "Lithium" then 25000
  else if mineral = "Copper" then 8500
  else if mineral = "Nickel" then 18000
  else if mineral = "Chromium" then 450
  else if mineral = "Uranium" then 140000
  else if mineral = "Rare Earth Elements (REEs)" then 75000
  else 5000

/-- The record-building loop of `MineralDatabase.load_excel_data`: for each row,
split the country string on commas, strip each token, clean it by removing a
parenthetical note (`country.split('(')[0].strip()`), and emit one record per
resulting country, in row order then country-list order. -/
def load_records (rows : List RawRow) : List MineralRecord :=
  rows.flatMap fun row =>
    ((pySplit ',' row.countries).map pyStrip).map fun country =>
      let clean_country := pyStrip (parenHead country)
      { mineral_name := row.mineral
        country := clean_country
        uses := row.uses
        year := 2024
        production_volume := estimate_production row.mineral clean_country
        reserves := estimate_reserves row.mineral clean_country
        price := estimate_price row.mineral
        unit := "tonnes" }

/-- One synthesized deposit, as built in `create_sample_deposits`. -/
structure Deposit where
  mineral : String
  location_name : String
  country : String
  latitude : ℚ
  longitude : ℚ
  reserves : Nat
  annual_production : Nat
  status : String
deriving DecidableEq

/-- The `country_coords` table of `create_sample_deposits`. -/
def country_coords : List (String × ℚ × ℚ) :=
  [("DRC", (-4.0 : ℚ), (23.0 : ℚ)),
   ("South Africa", (-29.0 : ℚ), (25.0 : ℚ)),
   ("Zimbabwe", (-19.0 : ℚ), (29.8 : ℚ)),
   ("Zambia", (-13.1 : ℚ), (27.8 : ℚ)),
   ("Mozambique", (-18.6 : ℚ), (35.5 : ℚ)),
   ("Madagascar", (-19.0 : ℚ), (46.3 : ℚ)),
   ("Tanzania", (-6.3 : ℚ), (34.8 : ℚ)),
   ("Ghana", (7.9 : ℚ), (-1.0 : ℚ)),
   ("Guinea", (9.9 : ℚ), (-9.6 : ℚ)),
   ("Namibia", (-22.5 : ℚ), (17.0 : ℚ)),
   ("Gabon", (-0.8 : ℚ), (11.6 : ℚ)),
   ("Niger", (17.6 : ℚ), (8.0 : ℚ)),
   ("Morocco", (31.7 : ℚ), (-7.0 : ℚ))]

/-- The first-country computation of `create_sample_deposits`:
`countries_str.split(',')[0].split('(')[0].strip()`. -/
def first_country_token (s : String) : String :=
  pyStrip (parenHead ((pySplit ',' s).headD ""))

/-- Embeds `MineralDatabase.create_sample_deposits`: one deposit per row whose first
listed country is in the coordinate table; other rows are skipped. -/
def create_sample_deposits (rows : List RawRow) : List Deposit :=
  rows.filterMap fun row =>
    let fc := first_country_token row.countries
    match country_coords.lookup fc with
    | some coords =>
        some { mineral := row.mineral
               location_name := row.mineral ++ " Deposit - " ++ fc
               country := fc
               latitude := coords.1
               longitude := coords.2
               reserves := estimate_reserves row.mineral fc
               annual_production := estimate_production row.mineral fc
               status := "Active" }
    | none => none

/-! ### Query methods (`modules/database.py`) -/

/-- The optional search filters: a Python dict that may carry a
`'mineral_name'` and/or a `'country'` key. -/
structure Filters where
  mineral_name : Option String
  country : Option String
deriving DecidableEq

/-- Truthiness guard of the loop body, Python `'k' in filters and filters['k']`: the key is present and its value truthy
(a non-empty string). -/
def filter_active : Option String → Bool
  | some v => v != ""
  | none => false

/-- The per-record match flag computed by the loop body of `search_minerals`. -/
def record_matches (f : Filters) (m : MineralRecord) : Bool :=
  let match0 := true
  let match1 :=
    if filter_active f.mineral_name &&
        (pyLower m.mineral_name != pyLower (f.mineral_name.getD "")) then false
    else match0
  let match2 :=
    if filter_active f.country &&
        (pyLower m.country != pyLower (f.country.getD "")) then false
    else match1
  match2

/-- Embeds `MineralDatabase.search_minerals`.  The argument `filters` is `none` for
Python `None`; a `Filters` value with both fields `none` is the empty dict,
which is falsy and also returns everything. -/
def search_minerals (minerals : List MineralRecord) (filters : Option Filters) :
    List MineralRecord :=
  match filters with
  | none => minerals
  | some f =>
    if f.mineral_name.isNone && f.country.isNone then minerals
    else minerals.filter (record_matches f)

/-- Embeds `MineralDatabase.get_unique_countries`: `sorted(list(set(...)))`, i.e. the
distinct country names in ascending order.  `dedup` followed by an ascending
sort is extensionally the same list: Python's arbitrary set order disappears
in the final sort. -/
def get_unique_countries (minerals : List MineralRecord) : List String :=
  List.insertionSort (fun a b => a ≤ b) ((minerals.map fun m => m.country).dedup)

/-- Embeds `MineralDatabase.count_countries`. -/
def count_countries (minerals : List MineralRecord) : Nat :=
  (get_unique_countries minerals).length

/-! ### Analytics (`modules/analytics.py`)

Only the data pipeline of each chart generator is embedded; the Plotly figure
construction renders the computed pairs and is outside the core. -/

/-- One step of the `defaultdict(int)` accumulation `d[k] += v`: update the
existing entry in place, or append a new key at the end (Python dicts preserve
insertion order). -/
def bumpAssoc : List (String × Nat) → String → Nat → List (String × Nat)
  | [], k, v => [(k, v)]
  | (k', x) :: rest, k, v =>
    if k' = k then (k', x + v) :: rest else (k', x) :: bumpAssoc rest k v

/-- The `country_production` accumulation loop shared by
`generate_production_by_country`, `generate_top_producers` and
`get_summary_statistics`. -/
def aggregate_production (minerals : List MineralRecord) : List (String × Nat) :=
  minerals.foldl (fun acc m => bumpAssoc acc m.country m.production_volume) []

/-- The order used by `sorted(..., key=lambda x: x[1], reverse=True)`:
`a` may precede `b` when its value is at least `b`'s. -/
def prodDesc (a b : String × Nat) : Prop := b.2 ≤ a.2

instance : DecidableRel prodDesc := fun a b => Nat.decLe b.2 a.2

instance : IsTotal (String × Nat) prodDesc := ⟨fun a b => Nat.le_total b.2 a.2⟩

instance : IsTrans (String × Nat) prodDesc := ⟨fun _ _ _ hab hbc => Nat.le_trans hbc hab⟩

/-- Model of `sorted(items, key=lambda x: x[1], reverse=True)`.  Python's sort
is stable; insertion sort with the total preorder `prodDesc` computes exactly
the stable descending-by-value reordering. -/
def sort_desc (l : List (String × Nat)) : List (String × Nat) :=
  List.insertionSort prodDesc l

/-- Data pipeline of `Analytics.generate_production_by_country`: `None` when no
record matches the mineral, otherwise the per-country production sums sorted
descending. -/
def generate_production_by_country (minerals : List MineralRecord)
    (mineral : String) : Option (List (String × Nat)) :=
  let ms := search_minerals minerals (some ⟨some mineral, none⟩)
  if ms.isEmpty then none
  else some (sort_desc (aggregate_production ms))

/-- Data pipeline of `Analytics.generate_top_producers`: per-country production
sums over all records, sorted descending, truncated to `limit`. -/
def generate_top_producers (minerals : List MineralRecord) (limit : Nat) :
    List (String × Nat) :=
  (sort_desc (aggregate_production minerals)).take limit

/-- Python `max(items, key=lambda x: x[1])` over a non-empty list: the first
item with the largest value (ties keep the earlier item). -/
def maxByVal : List (String × Nat) → Option (String × Nat)
  | [] => none
  | x :: xs => some (xs.foldl (fun best y => if best.2 < y.2 then y else best) x)

/-- The result record of `Analytics.get_summary_statistics`. -/
structure Stats where
  total_production : Nat
  total_reserves : Nat
  avg_price : ℚ
  top_producer : String
  top_producer_volume : Nat
deriving DecidableEq

/-- Embeds `Analytics.get_summary_statistics`.  The average price is a true division,
modelled in `ℚ`; the empty record set takes the explicit `else 0` branch and
the `('N/A', 0)` default of the conditional around `max`. -/
def get_summary_statistics (minerals : List MineralRecord) : Stats :=
  let tp := (maxByVal (aggregate_production minerals)).getD ("N/A", 0)
  { total_production := (minerals.map fun m => m.production_volume).sum
    total_reserves := (minerals.map fun m => m.reserves).sum
    avg_price :=
      if minerals.isEmpty then 0
      else ((minerals.map fun m => (m.price : ℚ)).sum) / (minerals.length : ℚ)
    top_producer := tp.1
    top_producer_volume := tp.2 }

/-! ### Authentication (`modules/auth.py`)

`hash_password` is SHA-256, an opaque external collaborator: the auth
operations are parameterized by an arbitrary `hash : String → String`.
The user store is passed and returned explicitly (`load_users`/`save_users`
read and write the same JSON list). -/

/-- One stored user account (`id`/`created_at` omitted as environment data);
`password` holds the stored hash. -/
structure User where
  username : String
  password : String
  email : String
  role : String
deriving DecidableEq

/-- The password-free user payload returned by a successful login. -/
structure UserView where
  username : String
  email : String
  role : String
deriving DecidableEq

/-- The result dict of `register`/`login`. -/
structure AuthResult where
  success : Bool
  message : String
  user : Option UserView
deriving DecidableEq

/-- Embeds `Authentication.role_permissions`. -/
def role_permissions : List (String × List String) :=
  [("Administrator", ["view_all", "edit_all", "delete_all", "manage_users", "export_data"]),
   ("Investor", ["view_all", "view_analytics", "export_data"]),
   ("Researcher", ["view_all", "view_analytics", "download_reports"])]

/-- Embeds `Authentication.check_permission`: unknown roles have no permissions. -/
def check_permission (role permission : String) : Bool :=
  match role_permissions.lookup role with
  | some ps => ps.contains permission
  | none => false

/-- Embeds `Authentication.register`.  `role` is `none` when the caller omits the
argument, in which case Python's default `role='Researcher'` applies.  Returns
the result dict together with the stored user list after the call. -/
def register (hash : String → String) (users : List User)
    (username password email : String) (role : Option String) :
    AuthResult × List User :=
  if username == "" || password == "" || email == "" then
    ({ success := false, message := "All fields are required", user := none }, users)
  else if users.any fun u => pyLower u.username == pyLower username then
    ({ success := false, message := "Username already exists", user := none }, users)
  else
    let new_user : User :=
      { username := username
        password := hash password
        email := email
        role := role.getD "Researcher" }
    ({ success := true, message := "User registered successfully", user := none },
      users ++ [new_user])

/-- Embeds `Authentication.login`. -/
def login (hash : String → String) (users : List User)
    (username password : String) : AuthResult :=
  if username == "" || password == "" then
    { success := false, message := "Username and password required", user := none }
  else
    match users.find? fun u => pyLower u.username == pyLower username with
    | none => { success := false, message := "Invalid username or password", user := none }
    | some user =>
      if hash password ≠ user.password then
        { success := false, message := "Invalid username or password", user := none }
      else
        { success := true
          message := "Login successful"
          user := some { username := user.username, email := user.email, role := user.role } }

/-! ### String canonicalization lemmas

`load_excel_data` canonicalizes a country token by `c.strip()` followed by
`.split('(')[0].strip()`, while `create_sample_deposits` computes
`split(',')[0].split('(')[0].strip()` without the inner strip.  The lemmas
below show the two agree: stripping before taking the pre-parenthesis part
never changes the final stripped result. -/

theorem whitespace_notParen {c : Char} (h : c.isWhitespace = true) : notParen c = true := by
  rcases eq_or_ne c '(' with rfl | hne
  · exact absurd h (by decide)
  · simp [notParen, hne]

theorem takeWhile_dropWhile_comm {α} (p q : α → Bool) (h : ∀ c, q c = true → p c = true) :
    ∀ l : List α, (l.takeWhile p).dropWhile q = (l.dropWhile q).takeWhile p
  | [] => rfl
  | c :: l => by
    by_cases hq : q c = true
    · have hp := h c hq
      rw [List.takeWhile_cons, if_pos hp, List.dropWhile_cons, if_pos hq,
        List.dropWhile_cons, if_pos hq]
      exact takeWhile_dropWhile_comm p q h l
    · rw [List.dropWhile_cons, if_neg hq]
      by_cases hp : p c = true
      · rw [List.takeWhile_cons, if_pos hp, List.dropWhile_cons, if_neg hq]
      · rw [List.takeWhile_cons, if_neg hp]
        rfl

theorem takeWhile_append_of_all {α} (p : α → Bool) {m : List α}
    (hm : ∀ a ∈ m, p a = true) (l₂ : List α) :
    (m ++ l₂).takeWhile p = m ++ l₂.takeWhile p := by
  induction m with
  | nil => simp
  | cons a m ih =>
    have hpa := hm a (by simp)
    simp only [List.cons_append, List.takeWhile_cons, hpa, if_pos]
    rw [ih fun b hb => hm b (by simp [hb])]

theorem takeWhile_append_of_not_all {α} (p : α → Bool) {m : List α}
    (hm : ¬ ∀ a ∈ m, p a = true) (l₂ : List α) :
    (m ++ l₂).takeWhile p = m.takeWhile p := by
  induction m with
  | nil => exact absurd (by simp) hm
  | cons a m ih =>
    by_cases hpa : p a = true
    · have hm' : ¬ ∀ b ∈ m, p b = true := by
        intro hall
        exact hm fun b hb => by
          rcases List.mem_cons.mp hb with rfl | hb'
          · exact hpa
          · exact hall b hb'
      simp only [List.cons_append, List.takeWhile_cons, hpa, if_pos]
      rw [ih hm']
    · simp [List.takeWhile_cons, hpa]

theorem takeWhile_eq_self_of_all {α} (p : α → Bool) {m : List α}
    (hm : ∀ a ∈ m, p a = true) : m.takeWhile p = m := by
  simpa using takeWhile_append_of_all p hm []

theorem rdropWhile_takeWhile_comm {α} (p q : α → Bool) (h : ∀ c, q c = true → p c = true)
    (u : List α) :
    ((u.rdropWhile q).takeWhile p).rdropWhile q = (u.takeWhile p).rdropWhile q := by
  induction u using List.reverseRecOn with
  | nil => rfl
  | append_singleton m c ih =>
    by_cases hc : q c = true
    · have hpc := h c hc
      rw [List.rdropWhile_concat_pos q m c hc]
      by_cases hall : ∀ a ∈ m, p a = true
      · have h1 : [c].takeWhile p = [c] := by simp [List.takeWhile_cons, hpc]
        rw [takeWhile_append_of_all p hall [c], h1, List.rdropWhile_concat_pos q m c hc,
          ih, takeWhile_eq_self_of_all p hall]
      · rw [takeWhile_append_of_not_all p hall [c]]
        exact ih
    · rw [List.rdropWhile_concat_neg q m c hc]

theorem dropWhile_eq_self_mono {α} (q : α → Bool) {v u : List α} (hvu : v <+: u)
    (hu : u.dropWhile q = u) : v.dropWhile q = v := by
  cases v with
  | nil => rfl
  | cons c v' =>
    obtain ⟨t, ht⟩ := hvu
    subst ht
    by_cases hqc : q c = true
    · exfalso
      rw [List.cons_append, List.dropWhile_cons, if_pos hqc] at hu
      have hle : ((v' ++ t).dropWhile q).length ≤ (v' ++ t).length :=
        (List.dropWhile_sublist _).length_le
      rw [hu] at hle
      simp at hle
    · rw [List.dropWhile_cons, if_neg hqc]

theorem stripL_takeWhile_stripL (l : List Char) :
    stripL ((stripL l).takeWhile notParen) = stripL (l.takeWhile notParen) := by
  have hw : ∀ c, Char.isWhitespace c = true → notParen c = true := fun _ h =>
    whitespace_notParen h
  unfold stripL
  rw [takeWhile_dropWhile_comm notParen Char.isWhitespace hw,
    dropWhile_eq_self_mono Char.isWhitespace
      ( List.rdropWhile_prefix Char.isWhitespace (l.dropWhile Char.isWhitespace))
      (List.dropWhile_idempotent Char.isWhitespace l),
    rdropWhile_takeWhile_comm notParen Char.isWhitespace hw,
    ← takeWhile_dropWhile_comm notParen Char.isWhitespace hw]

/-- The Deposit Synthesizer's canonicalization of a country token (no inner
strip) agrees with the Record Normalizer's (strip first, then remove the
parenthetical note, then strip). -/
theorem pyStrip_parenHead_pyStrip (s : String) :
    pyStrip (parenHead (pyStrip s)) = pyStrip (parenHead s) := by
  show (⟨stripL ((stripL s.data).takeWhile notParen)⟩ : String) =
    ⟨stripL (s.data.takeWhile notParen)⟩
  exact congrArg String.mk (stripL_takeWhile_stripL s.data)

/-! ### Aggregation lemmas -/

/-- The value an association list holds for key `c` (0 when absent); reads the
first entry with that key, like a Python dict access. -/
def getVal : List (String × Nat) → String → Nat
  | [], _ => 0
  | (k, v) :: rest, c => if k = c then v else getVal rest c

/-- The total production volume of the records of `ms` for country `c`. -/
def country_sum (ms : List MineralRecord) (c : String) : Nat :=
  ((ms.filter fun m => m.country == c).map fun m => m.production_volume).sum

theorem bumpAssoc_keys (acc : List (String × Nat)) (k : String) (v : Nat) :
    (bumpAssoc acc k v).map Prod.fst =
      if k ∈ acc.map Prod.fst then acc.map Prod.fst else acc.map Prod.fst ++ [k] := by
  induction acc with
  | nil => simp [bumpAssoc]
  | cons p rest ih =>
    obtain ⟨k', x⟩ := p
    by_cases hk : k' = k
    · subst hk
      simp [bumpAssoc]
    · simp only [bumpAssoc, if_neg hk, List.map_cons, ih, List.mem_cons]
      by_cases hmem : k ∈ rest.map Prod.fst
      · simp [hmem, Ne.symm hk]
      · simp [hmem, Ne.symm hk]

theorem bumpAssoc_mem_keys (acc : List (String × Nat)) (k : String) (v : Nat) (c : String) :
    c ∈ (bumpAssoc acc k v).map Prod.fst ↔ c ∈ acc.map Prod.fst ∨ c = k := by
  rw [bumpAssoc_keys]
  by_cases hmem : k ∈ acc.map Prod.fst
  · rw [if_pos hmem]
    constructor
    · exact fun h => Or.inl h
    · rintro (h | rfl)
      · exact h
      · exact hmem
  · rw [if_neg hmem]
    simp

theorem bumpAssoc_nodup {acc : List (String × Nat)} (k : String) (v : Nat)
    (h : (acc.map Prod.fst).Nodup) : ((bumpAssoc acc k v).map Prod.fst).Nodup := by
  rw [bumpAssoc_keys]
  by_cases hmem : k ∈ acc.map Prod.fst
  · rwa [if_pos hmem]
  · rw [if_neg hmem]
    simp [List.nodup_append, h, hmem]

theorem bumpAssoc_getVal (acc : List (String × Nat)) (k : String) (v : Nat) (c : String) :
    getVal (bumpAssoc acc k v) c = if c = k then getVal acc c + v else getVal acc c := by
  induction acc with
  | nil =>
    by_cases hc : c = k
    · subst hc
      simp [bumpAssoc, getVal]
    · have hkc : ¬ k = c := fun h => hc h.symm
      simp [bumpAssoc, getVal, hc, hkc]
  | cons p rest ih =>
    obtain ⟨k', x⟩ := p
    by_cases hk : k' = k
    · subst hk
      by_cases hc : c = k'
      · subst hc
        simp [bumpAssoc, getVal]
      · have hkc : ¬ k' = c := fun h => hc h.symm
        simp [bumpAssoc, getVal, hc, hkc]
    · by_cases hc : k' = c
      · have hck : ¬ c = k := fun h => hk (hc.trans h)
        simp [bumpAssoc, hk, getVal, hc, hck]
      · simp [bumpAssoc, hk, getVal, hc, ih]

theorem getVal_of_mem : ∀ {l : List (String × Nat)} {p : String × Nat}, p ∈ l →
    (l.map Prod.fst).Nodup → getVal l p.1 = p.2 := by
  intro l
  induction l with
  | nil => intro p hp; cases hp
  | cons q rest ih =>
    intro p hp hnd
    obtain ⟨k, v⟩ := q
    rcases List.mem_cons.mp hp with rfl | hp'
    · simp [getVal]
    · have hknd : k ∉ rest.map Prod.fst ∧ (rest.map Prod.fst).Nodup := by
        simpa using hnd
      have hk : ¬ k = p.1 := by
        intro h
        exact hknd.1 (h ▸ List.mem_map_of_mem Prod.fst hp')
      simp only [getVal, if_neg hk]
      exact ih hp' hknd.2

theorem country_sum_cons (m : MineralRecord) (ms : List MineralRecord) (c : String) :
    country_sum (m :: ms) c =
      if m.country = c then m.production_volume + country_sum ms c else country_sum ms c := by
  by_cases h : m.country = c
  · simp [country_sum, List.filter_cons, h]
  · simp [country_sum, List.filter_cons, h]

theorem aggregate_invariant (ms : List MineralRecord) :
    ∀ acc : List (String × Nat), (acc.map Prod.fst).Nodup →
      (((ms.foldl (fun a m => bumpAssoc a m.country m.production_volume) acc).map
          Prod.fst).Nodup ∧
        (∀ c, c ∈ (ms.foldl (fun a m => bumpAssoc a m.country m.production_volume) acc).map
            Prod.fst ↔ c ∈ acc.map Prod.fst ∨ c ∈ ms.map fun m => m.country) ∧
        (∀ c, getVal (ms.foldl (fun a m => bumpAssoc a m.country m.production_volume) acc) c =
          getVal acc c + country_sum ms c)) := by
  induction ms with
  | nil =>
    intro acc h
    refine ⟨h, fun c => ?_, fun c => ?_⟩
    · simp
    · simp [country_sum]
  | cons m ms ih =>
    intro acc hacc
    have hnd' := bumpAssoc_nodup m.country m.production_volume hacc
    obtain ⟨h1, h2, h3⟩ := ih (bumpAssoc acc m.country m.production_volume) hnd'
    refine ⟨h1, fun c => ?_, fun c => ?_⟩
    · rw [List.foldl_cons, h2 c, bumpAssoc_mem_keys]
      simp only [List.map_cons, List.mem_cons]
      tauto
    · rw [List.foldl_cons, h3 c, bumpAssoc_getVal, country_sum_cons]
      by_cases hc : c = m.country
      · rw [if_pos hc, if_pos (hc ▸ rfl : m.country = c)]
        omega
      · rw [if_neg hc, if_neg fun h => hc h.symm]

theorem aggregate_production_nodup (ms : List MineralRecord) :
    ((aggregate_production ms).map Prod.fst).Nodup :=
  (aggregate_invariant ms [] (by simp)).1

theorem aggregate_production_mem_keys (ms : List MineralRecord) (c : String) :
    c ∈ (aggregate_production ms).map Prod.fst ↔ c ∈ ms.map fun m => m.country := by
  have h := (aggregate_invariant ms [] (by simp)).2.1 c
  simpa [aggregate_production] using h

theorem aggregate_production_getVal (ms : List MineralRecord) (c : String) :
    getVal (aggregate_production ms) c = country_sum ms c := by
  have h := (aggregate_invariant ms [] (by simp)).2.2 c
  simpa [aggregate_production, getVal] using h

theorem mem_aggregate_production_snd {ms : List MineralRecord} {p : String × Nat}
    (hp : p ∈ aggregate_production ms) : p.2 = country_sum ms p.1 := by
  rw [← aggregate_production_getVal, getVal_of_mem hp (aggregate_production_nodup ms)]

theorem aggregate_production_length (ms : List MineralRecord) :
    (aggregate_production ms).length = ((ms.map fun m => m.country).dedup).length := by
  have h1 := aggregate_production_nodup ms
  have h2 : ((ms.map fun m => m.country).dedup).Nodup := List.nodup_dedup _
  have hperm : List.Perm ((aggregate_production ms).map Prod.fst)
      ((ms.map fun m => m.country).dedup) :=
    (List.perm_ext_iff_of_nodup h1 h2).mpr fun a => by
      rw [List.mem_dedup]
      exact aggregate_production_mem_keys ms a
  calc (aggregate_production ms).length
      = ((aggregate_production ms).map Prod.fst).length := (List.length_map _ _).symm
    _ = ((ms.map fun m => m.country).dedup).length := hperm.length_eq

/-! ### Concrete fixtures used by witnesses and counterexamples -/

/-- The raw row of the spec's concrete scenario. -/
def cobalt_row : RawRow :=
  { mineral := "Cobalt", countries := "DRC, Zambia (est.), Morocco", uses := "Batteries" }

/-- A raw row whose first country is not in the coordinate table. -/
def atlantis_row : RawRow :=
  { mineral := "Gold", countries := "Atlantis, DRC", uses := "Jewelry" }

/-- The record the loader builds for Cobalt in the DRC. -/
def rec_cobalt_drc : MineralRecord :=
  { mineral_name := "Cobalt", country := "DRC", uses := "Batteries", year := 2024,
    production_volume := 130000, reserves := 9750000, price := 32000, unit := "tonnes" }

/-- The record the loader builds for Cobalt in Zambia. -/
def rec_cobalt_zambia : MineralRecord :=
  { mineral_name := "Cobalt", country := "Zambia", uses := "Batteries", year := 2024,
    production_volume := 5000, reserves := 375000, price := 32000, unit := "tonnes" }

/-- A Cobalt record for Zambia with production 5000 (tie fixture). -/
def rec_tie_zambia : MineralRecord :=
  { mineral_name := "Cobalt", country := "Zambia", uses := "Batteries", year := 2024,
    production_volume := 5000, reserves := 375000, price := 32000, unit := "tonnes" }

/-- A Cobalt record for the DRC with production 5000 (tie fixture). -/
def rec_tie_drc : MineralRecord :=
  { mineral_name := "Cobalt", country := "DRC", uses := "Batteries", year := 2024,
    production_volume := 5000, reserves := 375000, price := 32000, unit := "tonnes" }

/-- The deposit synthesized from `cobalt_row`. -/
def deposit_drc : Deposit :=
  { mineral := "Cobalt", location_name := "Cobalt Deposit - DRC", country := "DRC",
    latitude := (-4.0 : ℚ), longitude := (23.0 : ℚ), reserves := 9750000,
    annual_production := 130000, status := "Active" }

/-- A concrete stand-in for the opaque password-hash collaborator. -/
def hash0 : String → String := fun s => s ++ "#"

/-- The default seeded users of `ensure_file_exists` (hashes via `hash0`). -/
def seeded_users : List User :=
  [{ username := "admin", password := hash0 "admin123",
     email := "admin@chronominerals.com", role := "Administrator" },
   { username := "investor1", password := hash0 "investor123",
     email := "investor@example.com", role := "Investor" },
   { username := "researcher1", password := hash0 "research123",
     email := "researcher@example.com", role := "Researcher" }]

/-! ### Sorting facts -/

theorem sort_desc_sorted (l : List (String × Nat)) : List.Sorted prodDesc (sort_desc l) :=
  List.sorted_insertionSort prodDesc l

theorem sort_desc_perm (l : List (String × Nat)) : List.Perm (sort_desc l) l :=
  List.perm_insertionSort prodDesc l

/-! ### Claim C3: the estimator invariant -/

/-- C3: every `MineralRecord` produced at load satisfies
`reserves == production_volume * 75`, and its `price` is the per-mineral
estimate, hence independent of the country; `estimate_reserves` is
`estimate_production * 75` everywhere; `estimate_production "Cobalt" "DRC"`
is 130000 with reserves 9750000, and unknown pairs/minerals fall back to the
defaults 10000 and 5000. -/
theorem load_estimator_invariant :
    (∀ rows r, r ∈ load_records rows →
        r.reserves = r.production_volume * 75 ∧ r.price = estimate_price r.mineral_name) ∧
    (∀ mineral country,
        estimate_reserves mineral country = estimate_production mineral country * 75) ∧
    (∀ rows r r', r ∈ load_records rows → r' ∈ load_records rows →
        r.mineral_name = r'.mineral_name → r.price = r'.price) ∧
    estimate_production "Cobalt" "DRC" = 130000 ∧
    estimate_reserves "Cobalt" "DRC" = 9750000 ∧
    estimate_production "Cobalt" "Atlantis" = 10000 ∧
    estimate_price "Gold" = 5000 := by
  have hmem : ∀ rows (r : MineralRecord), r ∈ load_records rows →
      r.reserves = r.production_volume * 75 ∧ r.price = estimate_price r.mineral_name := by
    intro rows r hr
    simp only [load_records, List.mem_flatMap, List.mem_map] at hr
    obtain ⟨row, _, c, _, rfl⟩ := hr
    exact ⟨rfl, rfl⟩
  refine ⟨hmem, fun m c => rfl, ?_, by decide, by decide, by decide, by decide⟩
  intro rows r r' h h' heq
  rw [(hmem rows r h).2, (hmem rows r' h').2, heq]

/-- Witness for C3 at the concrete Cobalt row. -/
theorem load_estimator_invariant_witness :
    rec_cobalt_drc.reserves = rec_cobalt_drc.production_volume * 75 ∧
    rec_cobalt_drc.price = estimate_price rec_cobalt_drc.mineral_name :=
  load_estimator_invariant.1 [cobalt_row] rec_cobalt_drc (by decide)

/-! ### Claim C4: the Normalizer emits one record per country token -/

/-- C4: the loader emits exactly one record per comma-separated country token
of each row, in row order then token order, with the token stripped and its
parenthetical suffix removed; the spec's concrete row yields exactly the
countries DRC, Zambia, Morocco. -/
theorem load_records_one_per_country :
    (∀ rows, (load_records rows).map (fun r => (r.mineral_name, r.country)) =
        rows.flatMap fun row => ((pySplit ',' row.countries).map pyStrip).map
          fun c => (row.mineral, pyStrip (parenHead c))) ∧
    (∀ rows, (load_records rows).length =
        (rows.map fun row => (pySplit ',' row.countries).length).sum) ∧
    (load_records [cobalt_row]).map (fun r => r.country) = ["DRC", "Zambia", "Morocco"] := by
  refine ⟨fun rows => ?_, fun rows => ?_, by decide⟩
  · simp only [load_records, List.map_flatMap, List.map_map]
    rfl
  · induction rows with
    | nil => rfl
    | cons row rows ih =>
      simp only [load_records, List.flatMap_cons, List.length_append, List.map_cons,
        List.sum_cons, List.length_map] at ih ⊢
      rw [ih]

/-! ### Claim C7: summary statistics on the empty record set -/

/-- C7: on an empty record set `get_summary_statistics` returns average price 0
and top producer `("N/A", 0)`, with no division by zero and no failing `max`. -/
theorem summary_statistics_empty :
    (get_summary_statistics []).avg_price = 0 ∧
    (get_summary_statistics []).top_producer = "N/A" ∧
    (get_summary_statistics []).top_producer_volume = 0 :=
  ⟨rfl, rfl, rfl⟩

/-! ### Claim C5: the Deposit Synthesizer -/

/-- C5: at most one deposit per raw row; every deposit uses only the row's
first listed country (canonicalized exactly as the Normalizer canonicalizes
its tokens), has status "Active", has coordinates from the fixed table, and
takes reserves/annual production from the estimator contract; a row whose
first country has no known coordinates is silently skipped. -/
theorem create_sample_deposits_spec :
    (∀ rows, (create_sample_deposits rows).length ≤ rows.length) ∧
    (∀ rows d, d ∈ create_sample_deposits rows →
        d.status = "Active" ∧ (country_coords.lookup d.country).isSome = true ∧
        ∃ row ∈ rows, d.mineral = row.mineral ∧
          d.country = first_country_token row.countries ∧
          d.reserves = estimate_production row.mineral d.country * 75 ∧
          d.annual_production = estimate_production row.mineral d.country) ∧
    (∀ s, first_country_token s =
        pyStrip (parenHead (pyStrip ((pySplit ',' s).headD "")))) ∧
    (∀ row rows, country_coords.lookup (first_country_token row.countries) = none →
        create_sample_deposits (row :: rows) = create_sample_deposits rows) := by
  refine ⟨fun rows => List.length_filterMap_le _ _, ?_, ?_, ?_⟩
  · intro rows d hd
    simp only [create_sample_deposits, List.mem_filterMap] at hd
    obtain ⟨row, hrow, hsome⟩ := hd
    cases hlk : country_coords.lookup (first_country_token row.countries) with
    | none => rw [hlk] at hsome; cases hsome
    | some coords =>
      rw [hlk] at hsome
      obtain rfl := Option.some_injective _ hsome
      refine ⟨rfl, ?_, row, hrow, rfl, rfl, rfl, rfl⟩
      simp only [hlk, Option.isSome_some]
  · intro s
    exact (pyStrip_parenHead_pyStrip ((pySplit ',' s).headD "")).symm
  · intro row rows hnone
    simp only [create_sample_deposits, List.filterMap_cons]
    rw [hnone]

/-- Witness for C5 at the concrete Cobalt row and at a row whose first country
is unknown to the coordinate table. -/
theorem create_sample_deposits_spec_witness :
    (deposit_drc.status = "Active" ∧
      (country_coords.lookup deposit_drc.country).isSome = true) ∧
    create_sample_deposits [atlantis_row] = create_sample_deposits [] := by
  have hmem : deposit_drc ∈ create_sample_deposits [cobalt_row] := by
    rw [show create_sample_deposits [cobalt_row] = [deposit_drc] from rfl]
    exact List.mem_singleton.mpr rfl
  have h := create_sample_deposits_spec.2.1 [cobalt_row] deposit_drc hmem
  exact ⟨⟨h.1, h.2.1⟩,
    create_sample_deposits_spec.2.2.2 atlantis_row [] (by decide)⟩

/-! ### Stability of the descending sort and first-appearance order

Python's `sorted` is stable: entries with equal keys keep their input order.
The lemmas below prove this for the insertion sort modelling it, and prove
that the aggregation's key order is the first-appearance order of the
countries among the records, so that the tie-break of the sorted output can
be settled in general. -/

theorem indexOf_append_right {α} [DecidableEq α] {a : α} {l₁ : List α} (l₂ : List α)
    (h : a ∉ l₁) : (l₁ ++ l₂).indexOf a = l₁.length + l₂.indexOf a := by
  induction l₁ with
  | nil => simp
  | cons x l ih =>
    have hxa : x ≠ a := fun e => h (by simp [e])
    have h' : a ∉ l := fun e => h (by simp [e])
    simp only [List.cons_append, List.indexOf_cons_ne _ hxa, ih h', List.length_cons]
    omega

theorem pair_sublist_snoc {α} {a b x : α} :
    ∀ {l : List α}, [a, b].Sublist (l ++ [x]) → [a, b].Sublist l ∨ (b = x ∧ a ∈ l) := by
  intro l
  induction l with
  | nil =>
    intro h
    simpa using h.length_le
  | cons y l ih =>
    intro h
    cases h with
    | cons _ h' =>
      rcases ih h' with h1 | ⟨hb, ha⟩
      · exact Or.inl (h1.cons y)
      · exact Or.inr ⟨hb, by simp [ha]⟩
    | cons₂ _ h' =>
      have hb := List.singleton_sublist.mp h'
      rcases List.mem_append.mp hb with hbl | hbx
      · exact Or.inl (List.Sublist.cons₂ _ (List.singleton_sublist.mpr hbl))
      · exact Or.inr ⟨by simpa using hbx, by simp⟩

theorem pair_sublist_indexOf {α} [DecidableEq α] :
    ∀ {l : List α} {a b : α}, l.Nodup → [a, b].Sublist l → l.indexOf a < l.indexOf b := by
  intro l
  induction l with
  | nil =>
    intro a b _ h
    simpa using h.length_le
  | cons x l ih =>
    intro a b hnd h
    obtain ⟨hx, hnd'⟩ := List.nodup_cons.mp hnd
    cases h with
    | cons _ h' =>
      have ha : a ∈ l := h'.subset (by simp)
      have hb : b ∈ l := h'.subset (by simp)
      have hxa : x ≠ a := fun e => hx (e ▸ ha)
      have hxb : x ≠ b := fun e => hx (e ▸ hb)
      rw [List.indexOf_cons_ne _ hxa, List.indexOf_cons_ne _ hxb]
      have := ih hnd' h'
      omega
    | cons₂ _ h' =>
      have hb : b ∈ l := List.singleton_sublist.mp h'
      have hba : x ≠ b := fun e => hx (e ▸ hb)
      rw [List.indexOf_cons_self, List.indexOf_cons_ne _ hba]
      omega

theorem mem_mem_pair_sublist {α} :
    ∀ {l : List α} {p q : α}, p ∈ l → q ∈ l → p ≠ q →
      [p, q].Sublist l ∨ [q, p].Sublist l := by
  intro l
  induction l with
  | nil => intro p q h; cases h
  | cons x l ih =>
    intro p q hp hq hne
    rcases List.mem_cons.mp hp with rfl | hp'
    · have hq' : q ∈ l := by
        rcases List.mem_cons.mp hq with h | h
        · exact absurd h.symm hne
        · exact h
      exact Or.inl (List.Sublist.cons₂ _ (List.singleton_sublist.mpr hq'))
    · rcases List.mem_cons.mp hq with rfl | hq'
      · exact Or.inr (List.Sublist.cons₂ _ (List.singleton_sublist.mpr hp'))
      · rcases ih hp' hq' hne with h | h
        · exact Or.inl (h.cons x)
        · exact Or.inr (h.cons x)

theorem sublist_orderedInsert (x : String × Nat) :
    ∀ L : List (String × Nat), L.Sublist (List.orderedInsert prodDesc x L) := by
  intro L
  induction L with
  | nil => exact List.nil_sublist _
  | cons y L ih =>
    by_cases hr : prodDesc x y
    · simp only [List.orderedInsert]
      rw [if_pos hr]
      exact List.sublist_cons_self x (y :: L)
    · simp only [List.orderedInsert]
      rw [if_neg hr]
      exact ih.cons₂ y

theorem orderedInsert_pair_sublist {p q : String × Nat} (htie : p.2 = q.2) :
    ∀ {L : List (String × Nat)}, q ∈ L → [p, q].Sublist (List.orderedInsert prodDesc p L) := by
  intro L
  induction L with
  | nil => intro h; cases h
  | cons y L ih =>
    intro hq
    by_cases hr : prodDesc p y
    · simp only [List.orderedInsert]
      rw [if_pos hr]
      exact List.Sublist.cons₂ p (List.singleton_sublist.mpr hq)
    · have hqy : q ≠ y := by
        rintro rfl
        exact hr (le_of_eq htie.symm)
      have hq' : q ∈ L := by
        rcases List.mem_cons.mp hq with h | h
        · exact absurd h hqy
        · exact h
      simp only [List.orderedInsert]
      rw [if_neg hr]
      exact (ih hq').cons y

theorem insertionSort_stable_pair {p q : String × Nat} (htie : p.2 = q.2) :
    ∀ {xs : List (String × Nat)}, [p, q].Sublist xs →
      [p, q].Sublist (List.insertionSort prodDesc xs) := by
  intro xs
  induction xs with
  | nil =>
    intro h
    simpa using h.length_le
  | cons x xs ih =>
    intro h
    simp only [List.insertionSort]
    cases h with
    | cons _ h' => exact (ih h').trans (sublist_orderedInsert x _)
    | cons₂ _ h' =>
      refine orderedInsert_pair_sublist htie ?_
      rw [List.mem_insertionSort]
      exact List.singleton_sublist.mp h'

theorem aggregate_step_order (done : List MineralRecord) (m : MineralRecord)
    (h : ∀ a b : String, [a, b].Sublist ((aggregate_production done).map Prod.fst) →
      (done.map fun x => x.country).indexOf a < (done.map fun x => x.country).indexOf b) :
    ∀ a b : String, [a, b].Sublist ((aggregate_production (done ++ [m])).map Prod.fst) →
      ((done ++ [m]).map fun x => x.country).indexOf a <
        ((done ++ [m]).map fun x => x.country).indexOf b := by
  intro a b hab
  have hfold : aggregate_production (done ++ [m]) =
      bumpAssoc (aggregate_production done) m.country m.production_volume := by
    unfold aggregate_production
    rw [List.foldl_append]
    exact rfl
  rw [hfold, bumpAssoc_keys] at hab
  have hmemk := aggregate_production_mem_keys done
  rw [List.map_append]
  by_cases hm : m.country ∈ (aggregate_production done).map Prod.fst
  · rw [if_pos hm] at hab
    have ha := (hmemk a).mp (hab.subset (by simp))
    have hb := (hmemk b).mp (hab.subset (by simp))
    rw [List.indexOf_append_of_mem ha, List.indexOf_append_of_mem hb]
    exact h a b hab
  · rw [if_neg hm] at hab
    rcases pair_sublist_snoc hab with hold | ⟨rfl, haK⟩
    · have ha := (hmemk a).mp (hold.subset (by simp))
      have hb := (hmemk b).mp (hold.subset (by simp))
      rw [List.indexOf_append_of_mem ha, List.indexOf_append_of_mem hb]
      exact h a b hold
    · have ha := (hmemk a).mp haK
      have hmc : m.country ∉ done.map fun x => x.country :=
        fun hc => hm ((hmemk _).mpr hc)
      rw [List.indexOf_append_of_mem ha, indexOf_append_right _ hmc]
      have h1 : (done.map fun x => x.country).indexOf a <
          (done.map fun x => x.country).length :=
        List.indexOf_lt_length.mpr ha
      have h2 : (([m].map fun x => x.country).indexOf m.country) = 0 :=
        List.indexOf_cons_self _ _
      omega

theorem aggregate_order (rest : List MineralRecord) :
    ∀ done : List MineralRecord,
      (∀ a b : String, [a, b].Sublist ((aggregate_production done).map Prod.fst) →
        (done.map fun x => x.country).indexOf a < (done.map fun x => x.country).indexOf b) →
      ∀ a b : String, [a, b].Sublist ((aggregate_production (done ++ rest)).map Prod.fst) →
        ((done ++ rest).map fun x => x.country).indexOf a <
          ((done ++ rest).map fun x => x.country).indexOf b := by
  induction rest with
  | nil =>
    intro done h
    simpa using h
  | cons m rest ih =>
    intro done h
    have h' := aggregate_step_order done m h
    have hrec := ih (done ++ [m]) h'
    rw [List.append_assoc, List.singleton_append] at hrec
    exact hrec

/-- The keys of the aggregation appear in the order in which their countries
first appear among the records. -/
theorem aggregate_first_appearance (ms : List MineralRecord) {a b : String}
    (h : [a, b].Sublist ((aggregate_production ms).map Prod.fst)) :
    (ms.map fun x => x.country).indexOf a < (ms.map fun x => x.country).indexOf b := by
  have hbase : ∀ a b : String,
      [a, b].Sublist ((aggregate_production ([] : List MineralRecord)).map Prod.fst) →
      (([] : List MineralRecord).map fun x => x.country).indexOf a <
        (([] : List MineralRecord).map fun x => x.country).indexOf b := by
    intro a b hab
    simpa [aggregate_production] using hab.length_le
  exact aggregate_order ms [] hbase a b h

/-- Stability of the full pipeline: whenever two tied entries appear in this
order in the sorted aggregation, the first one's country first appears
earlier among the records. -/
theorem sort_desc_tie_first_appearance (ms : List MineralRecord) {p q : String × Nat}
    (hsub : [p, q].Sublist (sort_desc (aggregate_production ms)))
    (htie : p.2 = q.2) :
    (ms.map fun x => x.country).indexOf p.1 < (ms.map fun x => x.country).indexOf q.1 := by
  have hnd_keys := aggregate_production_nodup ms
  have hnd : (aggregate_production ms).Nodup := hnd_keys.of_map Prod.fst
  have hperm := sort_desc_perm (aggregate_production ms)
  have hndl : (sort_desc (aggregate_production ms)).Nodup := hperm.nodup_iff.mpr hnd
  have hpqnd : List.Nodup [p, q] := hndl.sublist hsub
  have hpq : p ≠ q := by
    have := List.nodup_cons.mp hpqnd
    simpa using this.1
  have hp : p ∈ aggregate_production ms := hperm.mem_iff.mp (hsub.subset (by simp))
  have hq : q ∈ aggregate_production ms := hperm.mem_iff.mp (hsub.subset (by simp))
  rcases mem_mem_pair_sublist hp hq hpq with ho | ho
  · exact aggregate_first_appearance ms (ho.map Prod.fst)
  · exfalso
    have h1 : [q, p].Sublist (sort_desc (aggregate_production ms)) :=
      insertionSort_stable_pair htie.symm ho
    have hi1 := pair_sublist_indexOf hndl hsub
    have hi2 := pair_sublist_indexOf hndl h1
    omega

/-! ### Claim C2: production by country -/

/-- The records `generate_production_by_country` aggregates: the search
filtered by mineral name. -/
def matching_records (minerals : List MineralRecord) (mineral : String) :
    List MineralRecord :=
  search_minerals minerals (some ⟨some mineral, none⟩)

/-- The ordering demanded by the original claim: strictly larger totals first,
ties broken by country name ascending (lexicographic on the characters, as
Python compares strings). -/
def claim_tie_order (a b : String × Nat) : Prop :=
  b.2 < a.2 ∨ (a.2 = b.2 ∧ (a.1.data < b.1.data ∨ a.1 = b.1))

instance : DecidableRel claim_tie_order := fun a b => by
  unfold claim_tie_order
  infer_instance

/-- Counterexample to C2 as stated: over two Cobalt records with equal
production, Zambia first, the code returns the pairs in first-appearance
order, which violates the claimed ties-by-country-name-ascending order. -/
theorem production_by_country_tie_counterexample :
    generate_production_by_country [rec_tie_zambia, rec_tie_drc] "Cobalt" =
      some [("Zambia", 5000), ("DRC", 5000)] ∧
    ¬ List.Sorted claim_tie_order [("Zambia", 5000), ("DRC", 5000)] := by
  constructor
  · decide
  · decide

/-- C2 amended: `generate_production_by_country` returns `none` exactly when no
record matches the mineral; otherwise it returns per-country sums over the
matching records, with distinct countries covering every matching record,
sorted descending by total, and ties broken by first-appearance order (the
order of Python's stable sort): whenever two tied pairs occur in this order in
the output, the first one's country first appears earlier among the matching
records; on the spec's concrete records it returns
`[("DRC", 130000), ("Zambia", 5000)]`. -/
theorem production_by_country_amended :
    (∀ minerals mineral,
      (generate_production_by_country minerals mineral = none ↔
        matching_records minerals mineral = []) ∧
      ∀ l, generate_production_by_country minerals mineral = some l →
        List.Sorted prodDesc l ∧ (l.map Prod.fst).Nodup ∧
        (∀ p ∈ l, p.2 = country_sum (matching_records minerals mineral) p.1) ∧
        (∀ m ∈ matching_records minerals mineral, m.country ∈ l.map Prod.fst) ∧
        (∀ p q : String × Nat, [p, q].Sublist l → p.2 = q.2 →
          ((matching_records minerals mineral).map fun x => x.country).indexOf p.1 <
            ((matching_records minerals mineral).map fun x => x.country).indexOf q.1)) ∧
    generate_production_by_country [rec_cobalt_drc, rec_cobalt_zambia] "Cobalt" =
      some [("DRC", 130000), ("Zambia", 5000)] := by
  refine ⟨fun minerals mineral => ?_, by decide⟩
  have hdef : generate_production_by_country minerals mineral =
      if (matching_records minerals mineral).isEmpty then none
      else some (sort_desc (aggregate_production (matching_records minerals mineral))) := rfl
  constructor
  · rw [hdef]
    by_cases he : (matching_records minerals mineral).isEmpty
    · rw [if_pos he]
      simp [List.isEmpty_iff.mp he]
    · rw [if_neg he]
      have hne : matching_records minerals mineral ≠ [] := by
        simpa [List.isEmpty_iff] using he
      simp [hne]
  · intro l hl
    rw [hdef] at hl
    by_cases he : (matching_records minerals mineral).isEmpty
    · rw [if_pos he] at hl
      cases hl
    · rw [if_neg he] at hl
      have hl' := Option.some_injective _ hl
      subst hl'
      have hperm := sort_desc_perm (aggregate_production (matching_records minerals mineral))
      refine ⟨sort_desc_sorted _, ?_, ?_, ?_, ?_⟩
      · exact ((hperm.map Prod.fst).nodup_iff).mpr (aggregate_production_nodup _)
      · intro p hp
        exact mem_aggregate_production_snd (hperm.mem_iff.mp hp)
      · intro m hm
        exact ((hperm.map Prod.fst).mem_iff).mpr
          ((aggregate_production_mem_keys _ _).mpr (List.mem_map_of_mem _ hm))
      · intro p q hsub htie
        exact sort_desc_tie_first_appearance _ hsub htie

/-- Witness for C2 at the spec's concrete records and at the tie fixture: the
tie-break clause concretely places Zambia (first appearance) before DRC. -/
theorem production_by_country_amended_witness :
    List.Sorted prodDesc [("DRC", 130000), ("Zambia", 5000)] ∧
    (generate_production_by_country [rec_cobalt_drc, rec_cobalt_zambia] "Cobalt" = none ↔
      matching_records [rec_cobalt_drc, rec_cobalt_zambia] "Cobalt" = []) ∧
    ((matching_records [rec_tie_zambia, rec_tie_drc] "Cobalt").map
        fun x => x.country).indexOf "Zambia" <
      ((matching_records [rec_tie_zambia, rec_tie_drc] "Cobalt").map
        fun x => x.country).indexOf "DRC" :=
  ⟨((production_by_country_amended.1 [rec_cobalt_drc, rec_cobalt_zambia] "Cobalt").2
      [("DRC", 130000), ("Zambia", 5000)] (by decide)).1,
    (production_by_country_amended.1 [rec_cobalt_drc, rec_cobalt_zambia] "Cobalt").1,
    ((production_by_country_amended.1 [rec_tie_zambia, rec_tie_drc] "Cobalt").2
      [("Zambia", 5000), ("DRC", 5000)] (by decide)).2.2.2.2
      ("Zambia", 5000) ("DRC", 5000) (List.Sublist.refl _) rfl⟩

/-! ### Claim C6: top producers -/

/-- C6: `generate_top_producers` returns at most `limit` entries, sorted
descending by total production, and the result for any `limit` is a prefix of
the result for `count_countries` (which returns the whole ranking, since the
aggregation has exactly one entry per distinct country). -/
theorem top_producers_spec :
    ∀ minerals limit,
      (generate_top_producers minerals limit).length ≤ limit ∧
      List.Sorted prodDesc (generate_top_producers minerals limit) ∧
      generate_top_producers minerals limit <+:
        generate_top_producers minerals (count_countries minerals) := by
  intro minerals limit
  have hsorted := sort_desc_sorted (aggregate_production minerals)
  have hfull : generate_top_producers minerals (count_countries minerals) =
      sort_desc (aggregate_production minerals) := by
    unfold generate_top_producers
    apply List.take_of_length_le
    have h1 : (sort_desc (aggregate_production minerals)).length =
        (aggregate_production minerals).length :=
      (sort_desc_perm _).length_eq
    have h2 : count_countries minerals = ((minerals.map fun m => m.country).dedup).length := by
      unfold count_countries get_unique_countries
      exact (List.perm_insertionSort _ _).length_eq
    rw [h1, aggregate_production_length, h2]
  refine ⟨List.length_take_le _ _, hsorted.sublist (List.take_sublist _ _), ?_⟩
  rw [hfull]
  exact List.take_prefix _ _

/-! ### Claim C1: search -/

/-- One field of the matcher demanded by the original claim: a present field
must match by case-insensitive string equality, an absent one is free. -/
def claimed_field (v? : Option String) (field : String) : Bool :=
  match v? with
  | some v => pyLower field == pyLower v
  | none => true

/-- The matcher demanded by the original claim, written from the spec's
words. -/
def claimed_matches (f : Filters) (m : MineralRecord) : Bool :=
  claimed_field f.mineral_name m.mineral_name && claimed_field f.country m.country

/-- One field of the amended matcher: a field present with a non-empty value
must match case-insensitively; an absent or empty-string field imposes no
constraint. -/
def provided_field (v? : Option String) (field : String) : Bool :=
  match v? with
  | some v => if v = "" then true else pyLower field == pyLower v
  | none => true

/-- The matcher of the amended claim. -/
def provided_matches (f : Filters) (m : MineralRecord) : Bool :=
  provided_field f.mineral_name m.mineral_name && provided_field f.country m.country

/-- Counterexample to C1 as stated: a filter carrying the `mineral_name` key
with the empty-string value is ignored by the code (empty strings are falsy in
the `and` guard), so `search_minerals` keeps the Cobalt record even though
`"cobalt" ≠ ""`; the claim's matcher would drop it. -/
theorem search_empty_filter_counterexample :
    search_minerals [rec_cobalt_drc] (some ⟨some "", none⟩) ≠
      List.filter (claimed_matches ⟨some "", none⟩) [rec_cobalt_drc] := by
  decide

theorem record_matches_eq_and (f : Filters) (m : MineralRecord) :
    record_matches f m =
      ((if filter_active f.mineral_name &&
            (pyLower m.mineral_name != pyLower (f.mineral_name.getD "")) then false
        else true) &&
        (if filter_active f.country &&
            (pyLower m.country != pyLower (f.country.getD "")) then false
        else true)) := by
  unfold record_matches
  cases hB : (filter_active f.country && (pyLower m.country != pyLower (f.country.getD ""))) <;>
    cases hA : (filter_active f.mineral_name &&
      (pyLower m.mineral_name != pyLower (f.mineral_name.getD ""))) <;>
    simp [hA, hB]

theorem field_guard_eq_provided (o : Option String) (s : String) :
    (if filter_active o && (pyLower s != pyLower (o.getD "")) then false else true) =
      provided_field o s := by
  cases o with
  | none => rfl
  | some v =>
    by_cases hv : v = ""
    · subst hv
      simp [filter_active, provided_field]
    · have hact : filter_active (some v) = true := by simp [filter_active, hv]
      cases hb : (pyLower s == pyLower v) with
      | true => simp [provided_field, hv, hact, hb, bne]
      | false => simp [provided_field, hv, hact, hb, bne]

/-- C1 amended: `search_minerals` returns exactly the records whose provided
*non-empty* filter fields match case-insensitively, in backing-set order; an
absent or empty field imposes no constraint, and both a `None` filter and the
empty filter dict return the full record set unchanged. -/
theorem search_filter_amended :
    (∀ minerals f, search_minerals minerals (some f) =
        minerals.filter (provided_matches f)) ∧
    (∀ minerals, search_minerals minerals none = minerals) ∧
    (∀ minerals, search_minerals minerals (some ⟨none, none⟩) = minerals) := by
  have hmatch : ∀ (f : Filters) (m : MineralRecord),
      record_matches f m = provided_matches f m := by
    intro f m
    rw [record_matches_eq_and, field_guard_eq_provided, field_guard_eq_provided]
    rfl
  refine ⟨?_, fun minerals => rfl, fun minerals => rfl⟩
  intro minerals f
  simp only [search_minerals]
  cases hb : (f.mineral_name.isNone && f.country.isNone) with
  | false =>
    rw [if_neg (by simp [hb])]
    exact List.filter_congr fun m _ => hmatch f m
  | true =>
    rw [if_pos rfl]
    obtain ⟨h1, h2⟩ := (Bool.and_eq_true _ _).mp hb
    rw [Option.isNone_iff_eq_none] at h1 h2
    symm
    apply List.filter_eq_self.mpr
    intro m _
    simp [provided_matches, provided_field, h1, h2]

/-! ### Claim C8: login failure messages -/

/-- Counterexample to C8 as stated: the empty username is unknown to the
seeded store, yet the login attempt fails with the field-validation message,
not the generic invalid-credentials message. -/
theorem login_empty_username_counterexample :
    (login hash0 seeded_users "" "secret").success = false ∧
    (login hash0 seeded_users "" "secret").message ≠ "Invalid username or password" ∧
    (seeded_users.all fun u => pyLower u.username != pyLower "") = true := by
  decide

/-- C8 amended: for attempts with non-empty username and password, an unknown
username and a known username with a wrong password both produce the identical
generic failure result, so the two causes are indistinguishable; empty fields
are rejected earlier with a field-required message independent of the store. -/
theorem login_failure_message_amended :
    ∀ (hash : String → String) (users : List User) (username password : String),
      (username ≠ "" → password ≠ "" →
        ((users.find? fun u => pyLower u.username == pyLower username) = none →
          login hash users username password =
            { success := false, message := "Invalid username or password", user := none }) ∧
        (∀ u, (users.find? fun u => pyLower u.username == pyLower username) = some u →
          hash password ≠ u.password →
          login hash users username password =
            { success := false, message := "Invalid username or password", user := none })) ∧
      (username = "" ∨ password = "" →
        login hash users username password =
          { success := false, message := "Username and password required", user := none }) := by
  intro hash users username password
  constructor
  · intro hu hp
    constructor
    · intro hfind
      simp [login, hu, hp, hfind]
    · intro u hfind hpw
      simp [login, hu, hp, hfind, hpw]
  · intro hemp
    rcases hemp with h | h
    · simp [login, h]
    · simp [login, h]

/-- Witness for C8: both failure causes at concrete inputs produce the same
generic result. -/
theorem login_failure_message_amended_witness :
    login hash0 seeded_users "ghost" "pw" =
      { success := false, message := "Invalid username or password", user := none } ∧
    login hash0 seeded_users "admin" "wrongpass" =
      { success := false, message := "Invalid username or password", user := none } ∧
    login hash0 seeded_users "" "pw" =
      { success := false, message := "Username and password required", user := none } := by
  refine ⟨?_, ?_, ?_⟩
  · exact ((login_failure_message_amended hash0 seeded_users "ghost" "pw").1
      (by decide) (by decide)).1 (by decide)
  · exact ((login_failure_message_amended hash0 seeded_users "admin" "wrongpass").1
      (by decide) (by decide)).2
      ⟨"admin", hash0 "admin123", "admin@chronominerals.com", "Administrator"⟩
      (by decide) (by decide)
  · exact (login_failure_message_amended hash0 seeded_users "" "pw").2 (Or.inl rfl)

/-! ### Claim C9: registered roles -/

/-- Counterexample to C9 as stated: `register` performs no role validation, so
a successful registration can store a role outside the known set. -/
theorem register_unknown_role_counterexample :
    (register hash0 [] "eve" "pw" "eve@example.com" (some "SuperUser")).1.success = true ∧
    (register hash0 [] "eve" "pw" "eve@example.com" (some "SuperUser")).2 =
      [⟨"eve", hash0 "pw", "eve@example.com", "SuperUser"⟩] ∧
    role_permissions.lookup "SuperUser" = none ∧
    ("SuperUser" ≠ "Administrator" ∧ "SuperUser" ≠ "Investor" ∧
      "SuperUser" ≠ "Researcher") := by
  decide

/-- C9 amended: a successful registration stores the supplied role string
as-is, without validation against the known role set; when no role is supplied
the stored role defaults to "Researcher", which is in the known set. -/
theorem register_role_amended :
    (∀ (hash : String → String) (users : List User) (username password email : String)
        (role : Option String),
      (register hash users username password email role).1.success = true →
      (register hash users username password email role).2 =
        users ++ [⟨username, hash password, email, role.getD "Researcher"⟩]) ∧
    (role_permissions.lookup "Researcher").isSome = true := by
  refine ⟨?_, by decide⟩
  intro hash users username password email role hsucc
  cases hB1 : (username == "" || password == "" || email == "") with
  | true => simp [register, hB1] at hsucc
  | false =>
    cases hB2 : (users.any fun u => pyLower u.username == pyLower username) with
    | true => simp [register, hB1, hB2] at hsucc
    | false => simp [register, hB1, hB2]

/-- Witness for C9: registering without a role stores the Researcher role. -/
theorem register_role_amended_witness :
    (register hash0 [] "alice" "pw" "alice@example.com" none).2 =
      [⟨"alice", hash0 "pw", "alice@example.com", "Researcher"⟩] :=
  register_role_amended.1 hash0 [] "alice" "pw" "alice@example.com" none (by decide)

/-! ### Claim C10: failed registration leaves the store unchanged -/

/-- C10: whenever `register` returns a failed result (missing field or
case-insensitively duplicate username), the stored user list is exactly the
one before the call. -/
theorem register_failure_preserves_users :
    ∀ (hash : String → String) (users : List User) (username password email : String)
      (role : Option String),
      (register hash users username password email role).1.success = false →
      (register hash users username password email role).2 = users := by
  intro hash users username password email role hfail
  cases hB1 : (username == "" || password == "" || email == "") with
  | true => simp [register, hB1]
  | false =>
    cases hB2 : (users.any fun u => pyLower u.username == pyLower username) with
    | true => simp [register, hB1, hB2]
    | false => simp [register, hB1, hB2] at hfail

/-- Witness for C10: a case-insensitive duplicate registration ("Admin" vs the
seeded "admin") fails and leaves the seeded store unchanged. -/
theorem register_failure_preserves_users_witness :
    (register hash0 seeded_users "Admin" "pw" "x@y.com" none).2 = seeded_users :=
  register_failure_preserves_users hash0 seeded_users "Admin" "pw" "x@y.com" none (by decide)

end AfricanMineral
